import Mathlib

/-!
# Verification of the NEAR validator indexer epoch pipeline

Shallow embedding of the core pure logic of the Luganodes NEAR indexer:

* amount parsing and normalization (`src/transaction_fetcher.rs`):
  `safe_parse_amount`, `determine_type`, the per-transaction classifier
  plumbing `analyze_staking_transaction` / `process_transactions`;
* reward and APY derivation (`src/services/epoch_processor.rs`):
  `calculate_rewards`, `calculate_apy`, `calculate_initial_stakes`,
  `calculate_epoch_transaction_totals`;
* epoch boundary discovery (`src/services/near_rpc.rs`):
  `find_boundary_linear`, `find_epoch_boundary`, `get_epoch_data`, and the
  resume logic `get_or_sync_epoch_data` of `src/main.rs`;
* the dual-endpoint failover wrapper `query_rpc` (`src/services/near_rpc.rs`).

Modelling conventions:

* Rust `BigInt` is `Int`; `u64` block heights are `Nat` (no value in the
  programs under study approaches `2^64`, and all height arithmetic that the
  source performs is guarded so that it cannot underflow on the executed
  paths; truncated `Nat` subtraction is noted where it appears).
* The chain RPC is modelled as a total oracle assigning an `epoch_id` (and a
  timestamp) to every block height: `get_block_info` always succeeds and
  returns the requested height.  This matches the premise of the boundary
  search claims, which quantify over height-to-epoch oracles.
* Fallible Rust functions returning `Result` are modelled with
  `Option`/`Except`; the error payload is reduced to a descriptive string.
* Loops are modelled by structural recursion on an explicit fuel argument.
  Wrappers pass enough fuel that the fuel-exhaustion case is unreachable on
  every input (for the boundary searches) or on every reachable state (for
  epoch discovery); the exhaustion case is defined to coincide with the
  loop-exit value so evaluation matches the source everywhere it is used.
* `f64` arithmetic in `calculate_apy` is modelled over `ℚ`.  Every theorem
  about it is evaluated only at inputs where each intermediate `f64` value
  of the source is a small integer or an exactly representable fraction, so
  the rational model agrees exactly with the double computation there.
-/

namespace NearIndexer

/-! ## Decimal integer parsing (num-bigint `BigInt::from_str`) -/

/-- Numeric value of a list of ASCII decimal digits, most significant first. -/
def digitsVal (cs : List Char) : Nat :=
  cs.foldl (fun acc c => acc * 10 + (c.toNat - 48)) 0

/-- Embedding of `BigInt::from_str` (num-bigint): an optional leading `+` or
`-` sign followed by one or more ASCII decimal digits; any other input is an
error.  The error value is irrelevant to the claims, so the result is an
`Option`. -/
def bigIntFromChars : List Char → Option Int
  | [] => none
  | c :: cs =>
    if c = '+' then
      if cs ≠ [] ∧ cs.all Char.isDigit then some (Int.ofNat (digitsVal cs)) else none
    else if c = '-' then
      if cs ≠ [] ∧ cs.all Char.isDigit then some (-(Int.ofNat (digitsVal cs))) else none
    else
      if (c :: cs).all Char.isDigit then some (Int.ofNat (digitsVal (c :: cs))) else none

/-- `BigInt::from_str` on a `String`. -/
def bigIntFromStr (s : String) : Option Int :=
  bigIntFromChars s.data

/-! ## Amount normalization (`safe_parse_amount`, src/transaction_fetcher.rs:125) -/

/-- The cleaning pipeline of `safe_parse_amount`: trim surrounding
whitespace (Rust `str::trim`; the ASCII whitespace that can occur in the
inputs at hand), trim surrounding `"` characters (`trim_matches('"')`), and
keep the portion before the first `.` (Rust `split('.').next()`; the
`unwrap_or("0")` fallback is dead since `split` always yields at least one
piece). -/
def cleanAmount (s : String) : String :=
  let trimmed := ((s.data.dropWhile Char.isWhitespace).reverse.dropWhile
    Char.isWhitespace).reverse
  let unquoted := ((trimmed.dropWhile (fun c => c = '"')).reverse.dropWhile
    (fun c => c = '"')).reverse
  String.mk (unquoted.takeWhile (fun c => ¬ c = '.'))

/-- `safe_parse_amount` (src/transaction_fetcher.rs:125): clean the string,
re-parse it with `BigInt::from_str` and re-serialize the parsed value. -/
def safe_parse_amount (s : String) : Option String :=
  (bigIntFromStr (cleanAmount s)).map (fun n => toString n)

/-! ## Reward derivation (`calculate_rewards`, src/services/epoch_processor.rs:15) -/

/-- `calculate_rewards`: parse the current stake (unparseable treated as 0),
the optional previous stake (absent or unparseable treated as 0) and take the
optional per-delegator transaction total (absent treated as 0); return "0"
when the previous stake is zero and the current one is not, otherwise the
clamped difference `current - (previous + tx_total)`. -/
def calculate_rewards (current_stake : String) (previous_stake : Option String)
    (transaction_total : Option Int) : String :=
  let current := (bigIntFromStr current_stake).getD 0
  let previous := ((previous_stake.bind (fun s => bigIntFromStr s))).getD 0
  let tx_total := transaction_total.getD 0
  if previous = 0 ∧ ¬ current = 0 then "0"
  else
    let rewards := current - (previous + tx_total)
    if rewards < 0 then "0" else toString rewards

/-! ## APY derivation (`calculate_apy`, src/services/epoch_processor.rs:51) -/

/-- `f64::round`: round to the nearest integer, ties away from zero. -/
def rustRound (q : ℚ) : Int :=
  if q < 0 then -(Int.floor (-q + 1 / 2)) else Int.floor (q + 1 / 2)

/-- `calculate_apy`: zero when the parsed stake is zero, otherwise
`round(((rewards / stake) * 730) * 100) / 100`, with `EPOCHS_PER_YEAR = 730`.
The source performs the division and products in `f64` after a
decimal-string round trip; that arithmetic is modelled over `ℚ` and is exact
at every input used in the theorems below (all intermediates are integers
well below `2^53` or fractions with denominator 100).  The
`parse::<f64>().unwrap_or` fallbacks of the source are unreachable (a
decimal integer string always parses). -/
def calculate_apy (rewards stake_amount : String) : ℚ :=
  let rewards_big := (bigIntFromStr rewards).getD 0
  let stake_big := (bigIntFromStr stake_amount).getD 0
  if stake_big = 0 then 0
  else
    let rewards_f : ℚ := rewards_big
    let stake_f : ℚ := stake_big
    let epoch_rate := rewards_f / stake_f
    let annual_rate := epoch_rate * 730
    ((rustRound (annual_rate * 100) : ℚ)) / 100

/-- The APY formula exactly as the spec states it (for comparison with the
source's `calculate_apy`): `(rewards / stake) * EPOCHS_PER_YEAR * 100`,
rounded to 2 decimal places, and 0 when `stake = 0`. -/
def apySpecFormula (rewards stake : Int) : ℚ :=
  if stake = 0 then 0
  else ((rustRound (((rewards : ℚ) / (stake : ℚ)) * 730 * 100 * 100) : ℚ)) / 100

/-! ## Transaction kind derivation (`determine_type`, src/transaction_fetcher.rs:478) -/

/-- `determine_type`: the Rust `match` first inspects `action` ("unstake" and
"stake" decide immediately); only for any other action does it fall back to
the method table, with unrecognised combinations logged and defaulted to
"stake". -/
def determine_type (action method : String) : String :=
  if action = "unstake" then "unstake"
  else if action = "stake" then "stake"
  else if method = "deposit_and_stake" ∨ method = "stake" ∨ method = "distribute_staking" then
    "stake"
  else if method = "unstake" ∨ method = "unstake_all" ∨ method = "withdraw" ∨
      method = "withdraw_all" then
    "unstake"
  else "stake"

/-! ## Persisted transaction records (src/models/transaction.rs) -/

/-- The persisted `Transaction` document.  The chrono `DateTime<Utc>`
timestamp is modelled as its value in whole seconds since the epoch. -/
structure Transaction where
  transaction_hash : String
  amount : String
  method : String
  action : String
  type_ : String
  block_height : Nat
  timestamp : Int
  delegator_address : String
deriving DecidableEq, Repr

/-! ## The staking-transaction classifier plumbing
(`analyze_staking_transaction` / `process_transactions`,
src/transaction_fetcher.rs:139-194) -/

/-- The classifier's intermediate record (`StakingAction`). -/
structure StakingAction where
  action : String
  amount : String
  method : String
deriving DecidableEq, Repr

/-- A raw transaction as consumed by `analyze_staking_transaction`: the JSON
fields it reads, together with the outcome of the receipt analysis
(`analyze_receipts`, an RPC-dependent step modelled as an oracle attached to
the transaction: `none` when the analysis yields no staking action). -/
structure RawTx where
  transaction_hash : String
  block_height : Nat
  block_timestamp : String
  predecessor_account_id : String
  analysis : Option StakingAction
deriving DecidableEq, Repr

/-- Rust `str::parse::<i64>`: signed decimal integer within the `i64`
range. -/
def parseI64 (s : String) : Option Int :=
  match bigIntFromStr s with
  | none => none
  | some n => if -(2 ^ 63) ≤ n ∧ n < 2 ^ 63 then some n else none

/-- `analyze_staking_transaction` (src/transaction_fetcher.rs:158), given the
receipt-analysis outcome: derive the kind with `determine_type`, parse the
block timestamp (the `?` operator propagates a failure), normalise the
amount with `safe_parse_amount` (again `?`-propagated), and build the
persisted record.  `DateTime::from_timestamp(nanos / 1e9, 0)` is modelled as
the integer division itself (its out-of-range `unwrap_or(now)` fallback is
unreachable for chain timestamps). -/
def analyze_staking_transaction (tx : RawTx) : Except String (Option Transaction) :=
  match tx.analysis with
  | none => Except.ok none
  | some result =>
    let type_ := determine_type result.action result.method
    match parseI64 tx.block_timestamp with
    | none => Except.error ("parse int: " ++ tx.block_timestamp)
    | some timestamp_nanos =>
      let datetime := timestamp_nanos / 1000000000
      match safe_parse_amount result.amount with
      | none => Except.error ("parse amount: " ++ result.amount)
      | some amount =>
        Except.ok (some
          { transaction_hash := tx.transaction_hash
            amount := amount
            method := result.method
            action := result.action
            type_ := type_
            block_height := tx.block_height
            timestamp := datetime
            delegator_address := tx.predecessor_account_id })

/-- The accumulation loop of `process_transactions`
(src/transaction_fetcher.rs:139): push every successfully classified record,
skip `Ok(None)`, and propagate the first error (`?`), abandoning the rest of
the batch. -/
def processTransactionsGo (txs : List RawTx) (acc : List Transaction) :
    Except String (List Transaction) :=
  match txs with
  | [] => Except.ok acc.reverse
  | tx :: rest =>
    match analyze_staking_transaction tx with
    | Except.error e => Except.error e
    | Except.ok none => processTransactionsGo rest acc
    | Except.ok (some t) => processTransactionsGo rest (t :: acc)

/-- `process_transactions` (src/transaction_fetcher.rs:139). -/
def process_transactions (txs : List RawTx) : Except String (List Transaction) :=
  processTransactionsGo txs []

/-! ## Per-delegator stake maps (src/services/epoch_processor.rs:88-149) -/

/-- Rust `HashMap<String, BigInt>` modelled extensionally as a partial map. -/
def StakeMap : Type := String → Option Int

/-- One iteration of the `calculate_initial_stakes` loop: a transaction whose
amount fails to parse is logged and skipped (no entry is created); otherwise
the delegator's entry is created at 0 if absent (`entry().or_insert_with`)
and then adjusted according to `type_` ("stake" adds, "unstake" subtracts,
anything else is logged and leaves the value unchanged). -/
def initialStakesStep (stakes : StakeMap) (tx : Transaction) : StakeMap :=
  match bigIntFromStr tx.amount with
  | none => stakes
  | some amount =>
    let stake := (stakes tx.delegator_address).getD 0
    let stake' := if tx.type_ = "stake" then stake + amount
      else if tx.type_ = "unstake" then stake - amount
      else stake
    fun d => if d = tx.delegator_address then some stake' else stakes d

/-- `calculate_initial_stakes` (src/services/epoch_processor.rs:88): sort the
transactions by `block_height` (Rust stable `sort_by_key`) and fold. -/
def calculate_initial_stakes (transactions : List Transaction) : StakeMap :=
  (transactions.mergeSort
      (fun a b => decide (a.block_height ≤ b.block_height))).foldl
    initialStakesStep (fun _ => none)

/-- One iteration of the `calculate_epoch_transaction_totals` loop: an
unparseable amount is treated as 0 (`unwrap_or_else(zero)`), the entry is
always created, and unknown kinds leave the value unchanged. -/
def epochTotalsStep (totals : StakeMap) (tx : Transaction) : StakeMap :=
  let amount := (bigIntFromStr tx.amount).getD 0
  let total := (totals tx.delegator_address).getD 0
  let total' := if tx.type_ = "stake" then total + amount
    else if tx.type_ = "unstake" then total - amount
    else total
  fun d => if d = tx.delegator_address then some total' else totals d

/-- `calculate_epoch_transaction_totals` (src/services/epoch_processor.rs:130). -/
def calculate_epoch_transaction_totals (transactions : List Transaction) : StakeMap :=
  transactions.foldl epochTotalsStep (fun _ => none)

/-- The signed contribution of a single transaction to delegator `d`, as the
spec words it: `+amount` for kind "stake", `-amount` for kind "unstake",
0 for other kinds and for amounts that do not parse. -/
def txContribution (d : String) (tx : Transaction) : Int :=
  if d = tx.delegator_address then
    match bigIntFromStr tx.amount with
    | none => 0
    | some a =>
      if tx.type_ = "stake" then a else if tx.type_ = "unstake" then -a else 0
  else 0

/-- The per-delegator signed sum over a transaction list. -/
def signedTxSum (txs : List Transaction) (d : String) : Int :=
  (txs.map (txContribution d)).sum

/-! ## Epoch boundary search (src/services/near_rpc.rs:465-561)

`get_block_info` is modelled as a total height-to-epoch-id oracle
`Nat → String`: every height resolves, and the returned `actual_height`
equals the requested one.  The loops run on explicit fuel; the wrappers pass
`end + 2 - start` fuel, which exceeds the loop measure on every input, and
the fuel-exhaustion values are chosen to coincide with the loop-exit values,
so the functions agree with the source unconditionally. -/

/-- The `while current <= end_block` loop of `find_boundary_linear`
(src/services/near_rpc.rs:523): return the first height in
`[current, end_block]` whose epoch id differs from `current_epoch_id`, and
`end_block + 1` when none does. -/
def findBoundaryLinearLoop (oracle : Nat → String) (end_block : Nat)
    (current_epoch_id : String) : Nat → Nat → Nat
  | 0, _ => end_block + 1
  | fuel + 1, current =>
    if current ≤ end_block then
      if ¬ oracle current = current_epoch_id then current
      else findBoundaryLinearLoop oracle end_block current_epoch_id fuel (current + 1)
    else end_block + 1

/-- `find_boundary_linear` (src/services/near_rpc.rs:523). -/
def find_boundary_linear (oracle : Nat → String) (start_block end_block : Nat)
    (current_epoch_id : String) : Nat :=
  findBoundaryLinearLoop oracle end_block current_epoch_id
    (end_block + 2 - start_block) start_block

/-- The `while low <= high` loop of `find_epoch_boundary`
(src/services/near_rpc.rs:465): binary search that hands ranges of at most 5
over to the linear scan, and returns `low` once the range is empty. -/
def findEpochBoundaryLoop (oracle : Nat → String) (current_epoch_id : String) :
    Nat → Nat → Nat → Nat
  | 0, low, _ => low
  | fuel + 1, low, high =>
    if low ≤ high then
      if high - low ≤ 5 then
        find_boundary_linear oracle low high current_epoch_id
      else
        let mid := low + (high - low) / 2
        if oracle mid = current_epoch_id then
          findEpochBoundaryLoop oracle current_epoch_id fuel (mid + 1) high
        else
          findEpochBoundaryLoop oracle current_epoch_id fuel low (mid - 1)
    else low

/-- `find_epoch_boundary` (src/services/near_rpc.rs:465). -/
def find_epoch_boundary (oracle : Nat → String) (start_block end_block : Nat)
    (current_epoch_id : String) : Nat :=
  findEpochBoundaryLoop oracle current_epoch_id (end_block + 2 - start_block)
    start_block end_block

/-! ## Epoch discovery (`get_epoch_data`, src/services/near_rpc.rs:334) -/

/-- The discovered epoch record (src/models/epoch_info.rs), timestamp in
whole seconds. -/
structure EpochInfo where
  start_block : Nat
  end_block : Option Nat
  epoch_id : String
  timestamp : Int
deriving DecidableEq, Repr

/-- The chain as `get_epoch_data` observes it: an epoch id and a timestamp
(nanoseconds) for every height, and the latest finalised height. -/
structure ChainOracle where
  epochId : Nat → String
  timestampNs : Nat → Nat
  currentBlock : Nat

/-- Timestamp of a block in whole seconds
(`header.timestamp / 1_000_000_000`). -/
def blockTsSecs (oracle : ChainOracle) (h : Nat) : Int :=
  Int.ofNat (oracle.timestampNs h / 1000000000)

/-- The final `if epoch_start_block < current_block` push of `get_epoch_data`
(src/services/near_rpc.rs:435): the trailing partial epoch. -/
def epochDataFinal (current_block : Nat) (epoch_start : Nat)
    (current_epoch_id : String) (epoch_ts : Int) : List EpochInfo :=
  if epoch_start < current_block then
    [⟨epoch_start, some current_block, current_epoch_id, epoch_ts⟩]
  else []

/-- The `while current_height < current_block` loop of `get_epoch_data`
(src/services/near_rpc.rs:375): estimate the next boundary, bail out to the
trailing partial epoch when the estimate reaches the current block, otherwise
locate the exact boundary, record the finished epoch, and continue from the
boundary with its epoch id and timestamp.  The fuel-exhaustion case is
unreachable from the wrapper (the boundary strictly exceeds the current
height on every iteration, see `find_epoch_boundary_lt` below). -/
def getEpochDataLoop (oracle : ChainOracle) (epoch_blocks : Nat) :
    Nat → Nat → String → Nat → Int → List EpochInfo
  | 0, _, current_epoch_id, epoch_start, epoch_ts =>
    epochDataFinal oracle.currentBlock epoch_start current_epoch_id epoch_ts
  | fuel + 1, current_height, current_epoch_id, epoch_start, epoch_ts =>
    if current_height < oracle.currentBlock then
      let estimated_next := current_height + epoch_blocks
      if oracle.currentBlock ≤ estimated_next then
        epochDataFinal oracle.currentBlock epoch_start current_epoch_id epoch_ts
      else
        let boundary := find_epoch_boundary oracle.epochId current_height
          (estimated_next + epoch_blocks / 2) current_epoch_id
        ⟨epoch_start, some (boundary - 1), current_epoch_id, epoch_ts⟩ ::
          getEpochDataLoop oracle epoch_blocks fuel boundary
            (oracle.epochId boundary) boundary (blockTsSecs oracle boundary)
    else
      epochDataFinal oracle.currentBlock epoch_start current_epoch_id epoch_ts

/-- `get_epoch_data` (src/services/near_rpc.rs:334): discover epochs from
`start_block_height` up to the latest finalised block. -/
def get_epoch_data (oracle : ChainOracle) (start_block_height : Nat)
    (epoch_blocks : Nat) : List EpochInfo :=
  getEpochDataLoop oracle epoch_blocks (oracle.currentBlock + 1)
    start_block_height (oracle.epochId start_block_height) start_block_height
    (blockTsSecs oracle start_block_height)

/-! ## Resume logic (`get_or_sync_epoch_data`, src/main.rs:110)

The `epoch_sync` collection is modelled as the list of its documents in
natural (insertion) order.  `save_epoch_sync` upserts by `epoch_id`
(`update_one` with filter on `epoch_id`, `$set` of the whole document,
upsert): the first document with that id is replaced in place, and a missing
id is appended.  `get_epoch_sync_by_index(i)` sorts by ascending
`start_block`, skips `i` and takes one; equal `start_block` tie order is
driver-unspecified and modelled as natural order (stable insertion sort). -/

/-- Insert one record into a list kept in ascending `start_block` order,
after any records with the same `start_block` (stability). -/
def insertByStartBlock (e : EpochInfo) : List EpochInfo → List EpochInfo
  | [] => [e]
  | d :: rest =>
    if e.start_block < d.start_block then e :: d :: rest
    else d :: insertByStartBlock e rest

/-- The ascending-`start_block` view of the collection used by the indexed
read-back (`get_epoch_sync_by_index`). -/
def sortByStartBlock (coll : List EpochInfo) : List EpochInfo :=
  coll.foldr insertByStartBlock []

/-- `save_epoch_sync` (src/repositories/epoch_sync_repository.rs): upsert by
`epoch_id` — replace the first document carrying the id, append when none
does. -/
def upsertByEpochId : List EpochInfo → EpochInfo → List EpochInfo
  | [], e => [e]
  | d :: rest, e =>
    if d.epoch_id = e.epoch_id then e :: rest
    else d :: upsertByEpochId rest e

/-- `get_or_sync_epoch_data` (src/main.rs:110).  `get_latest_epoch_sync`
(maximum `start_block`) and `get_epoch_sync_count` are read first.  On
resume (more than `epoch_blocks` past the latest record's `start_block`),
discovery restarts from `latest.start_block`, every new epoch is upserted by
`epoch_id` into the collection, and then the first `epoch_sync_count`
records of the *post-save* collection are read back in ascending
`start_block` order and the new epochs appended; otherwise only the indexed
read-back runs. -/
def get_or_sync_epoch_data (oracle : ChainOracle) (persisted : List EpochInfo)
    (start_block_height : Nat) (epoch_blocks : Nat) : List EpochInfo :=
  match (sortByStartBlock persisted).getLast? with
  | some latest =>
    if epoch_blocks < oracle.currentBlock - latest.start_block then
      let new_epochs := get_epoch_data oracle latest.start_block epoch_blocks
      ((sortByStartBlock (new_epochs.foldl upsertByEpochId persisted)).take
        persisted.length) ++ new_epochs
    else (sortByStartBlock persisted).take persisted.length
  | none => get_epoch_data oracle start_block_height epoch_blocks

/-- Contiguity of two adjacent epoch records: the first has an end block and
the second starts right after it. -/
def epochContiguous (a b : EpochInfo) : Prop :=
  a.end_block.map (fun e => e + 1) = some b.start_block

instance (a b : EpochInfo) : Decidable (epochContiguous a b) :=
  inferInstanceAs (Decidable (a.end_block.map (fun e => e + 1) = some b.start_block))

/-! ## Dual-endpoint failover (`query_rpc`, src/services/near_rpc.rs:140) -/

/-- `query_rpc` (src/services/near_rpc.rs:140), instrumented with call
counts: the pair records how many requests were issued to the primary and
the secondary endpoint.  The source calls the primary once; on any error it
calls the secondary once (rebuilding the request via `fallback()`); if that
also fails, the secondary's error is returned to the caller.  There is no
loop. -/
def query_rpc {α : Type} (primary secondary : Except String α) :
    Except String α × Nat × Nat :=
  match primary with
  | Except.ok response => (Except.ok response, 1, 0)
  | Except.error _ =>
    match secondary with
    | Except.ok response => (Except.ok response, 1, 1)
    | Except.error e => (Except.error e, 1, 1)

/-! ## Helper lemmas -/

/-- Clamping to zero then printing agrees with printing the max with 0. -/
lemma clamp_toString (r : Int) :
    (if r < 0 then "0" else toString r) = toString (max 0 r) := by
  by_cases h : r < 0
  · rw [if_pos h, max_eq_left h.le]
    rfl
  · rw [if_neg h, max_eq_right (not_lt.mp h)]

/-- A non-negative integer prints like the corresponding natural number. -/
lemma toString_int_nonneg (r : Int) (h : 0 ≤ r) : toString r = toString r.toNat := by
  cases r with
  | ofNat m => rfl
  | negSucc m => exact absurd h (by simp)

/-! ## C1: reward derivation versus the claimed case split -/

/-- C1, counterexample.  With `prev` *present* with value `"0"`, current
stake `"5"` and transaction total 0, the claim's else-branch formula demands
`max(0, 5 - (0 + 0)) = "5"`, but `calculate_rewards` takes its first branch
(the parsed previous stake is zero) and returns `"0"`. -/
theorem calculate_rewards_claim_counterexample :
    calculate_rewards "5" (some "0") (some 0) = "0" ∧
      ¬ ("0" : String) = toString (max 0 ((5 : Int) - (0 + 0))) := by
  exact ⟨rfl, by decide⟩

/-- C1, amended.  `calculate_rewards` returns `"0"` whenever the parsed
previous stake is 0 — prev absent, unparseable, or equal to `"0"` — and the
parsed current stake is non-zero; in every other case it returns
`max(0, current - (previous + tx_total))` as a decimal string (negative
results clamped to 0). -/
theorem calculate_rewards_spec (current_stake : String)
    (previous_stake : Option String) (transaction_total : Option Int) :
    calculate_rewards current_stake previous_stake transaction_total =
      (let current := (bigIntFromStr current_stake).getD 0
       let previous := ((previous_stake.bind (fun s => bigIntFromStr s))).getD 0
       if previous = 0 ∧ ¬ current = 0 then "0"
       else toString (max 0 (current - (previous + transaction_total.getD 0)))) := by
  unfold calculate_rewards
  by_cases h : ((previous_stake.bind (fun s => bigIntFromStr s))).getD 0 = 0 ∧
      ¬ ((bigIntFromStr current_stake).getD 0 : Int) = 0
  · simp only [if_pos h]
  · simp only [if_neg h, clamp_toString]

/-! ## C10: totality and non-negativity of the reward string -/

/-- C10.  `calculate_rewards` is total by construction (unparseable inputs
are treated as 0) and its result is always the decimal representation of a
non-negative integer. -/
theorem calculate_rewards_nonneg (current_stake : String)
    (previous_stake : Option String) (transaction_total : Option Int) :
    ∃ n : Nat, calculate_rewards current_stake previous_stake transaction_total
      = toString n := by
  unfold calculate_rewards
  by_cases h : ((previous_stake.bind (fun s => bigIntFromStr s))).getD 0 = 0 ∧
      ¬ ((bigIntFromStr current_stake).getD 0 : Int) = 0
  · exact ⟨0, by rw [if_pos h]; rfl⟩
  · rw [if_neg h]
    set r : Int := (bigIntFromStr current_stake).getD 0 -
      (((previous_stake.bind (fun s => bigIntFromStr s))).getD 0 +
        transaction_total.getD 0) with hr
    by_cases hneg : r < 0
    · exact ⟨0, by rw [if_pos hneg]; rfl⟩
    · exact ⟨r.toNat, by rw [if_neg hneg, toString_int_nonneg r (not_lt.mp hneg)]⟩

/-! ## C5: transaction kind derivation -/

/-- C5, counterexample.  For `action = "stake"`, `method = "withdraw"` the
claim's iff demands `"unstake"` (the method belongs to the unstake set), but
the source matches on `action` first and returns `"stake"`. -/
theorem determine_type_counterexample :
    determine_type "stake" "withdraw" = "stake" ∧
      ¬ determine_type "stake" "withdraw" = "unstake" := by
  exact ⟨rfl, by decide⟩

/-- C5, amended.  `determine_type` returns `"unstake"` iff `action` is
`"unstake"`, or `action` is neither `"stake"` nor `"unstake"` and `method`
is one of unstake / unstake_all / withdraw / withdraw_all; in every other
case (including unrecognised combinations) it returns `"stake"`. -/
theorem determine_type_spec (action method : String) :
    determine_type action method =
      (if action = "unstake" ∨ (¬ action = "stake" ∧
          (method = "unstake" ∨ method = "unstake_all" ∨ method = "withdraw" ∨
            method = "withdraw_all")) then "unstake" else "stake") := by
  unfold determine_type
  by_cases h1 : action = "unstake"
  · simp [h1]
  · by_cases h2 : action = "stake"
    · subst h2
      simp [h1]
    · by_cases h3 : method = "deposit_and_stake" ∨ method = "stake" ∨
          method = "distribute_staking"
      · rcases h3 with h3 | h3 | h3 <;> subst h3 <;> simp [h1, h2]
      · by_cases h4 : method = "unstake" ∨ method = "unstake_all" ∨
            method = "withdraw" ∨ method = "withdraw_all"
        · simp [h1, h2, h3, h4]
        · simp [h1, h2, h3, h4]

/-! ## C9: what `safe_parse_amount` guarantees -/

/-- C9, counterexample.  The cleaned token `"-5"` parses (num-bigint accepts
a signed integer), so `safe_parse_amount` succeeds and returns the negative
amount `"-5"`, contradicting the claimed non-negativity. -/
theorem safe_parse_amount_counterexample :
    safe_parse_amount "-5" = some "-5" ∧ bigIntFromStr "-5" = some (-5) ∧
      ((-5 : Int) < 0) := by
  exact ⟨rfl, rfl, by decide⟩

/-- C9, amended.  When `safe_parse_amount` succeeds its result is the
decimal representation of an integer — the signed value of the cleaned
token — and that value is non-negative whenever the cleaned token does not
begin with a minus sign.  Non-negativity is not enforced by the code. -/
theorem safe_parse_amount_spec (s out : String)
    (h : safe_parse_amount s = some out) :
    ∃ n : Int, out = toString n ∧ bigIntFromStr (cleanAmount s) = some n ∧
      (¬ (cleanAmount s).data.head? = some '-' → 0 ≤ n) := by
  unfold safe_parse_amount at h
  cases hp : bigIntFromStr (cleanAmount s) with
  | none => rw [hp] at h; exact absurd h (by simp)
  | some n =>
    rw [hp] at h
    refine ⟨n, by simpa using h.symm, rfl, fun hhead => ?_⟩
    unfold bigIntFromStr at hp
    cases hd : (cleanAmount s).data with
    | nil => rw [hd] at hp; exact absurd hp (by simp [bigIntFromChars])
    | cons c cs =>
      rw [hd] at hp hhead
      simp only [List.head?_cons] at hhead
      simp only [bigIntFromChars] at hp
      by_cases hplus : c = '+'
      · rw [if_pos hplus] at hp
        by_cases hcs : cs ≠ [] ∧ cs.all Char.isDigit
        · rw [if_pos hcs] at hp
          cases hp
          exact Int.ofNat_nonneg _
        · rw [if_neg hcs] at hp; exact absurd hp (by simp)
      · rw [if_neg hplus] at hp
        by_cases hminus : c = '-'
        · exact absurd (by rw [hminus]) hhead
        · rw [if_neg hminus] at hp
          by_cases hcs : (c :: cs).all Char.isDigit
          · rw [if_pos hcs] at hp
            cases hp
            exact Int.ofNat_nonneg _
          · rw [if_neg hcs] at hp; exact absurd hp (by simp)

/-- C9 witness: the amended statement evaluated on the spec's own round-trip
example, `safe_parse_amount "  \"123.45\"  " = "123"` with value 123 ≥ 0. -/
theorem safe_parse_amount_spec_witness :
    ∃ n : Int, "123" = toString n ∧
      bigIntFromStr (cleanAmount "  \"123.45\"  ") = some n ∧
      (¬ (cleanAmount "  \"123.45\"  ").data.head? = some '-' → 0 ≤ n) :=
  safe_parse_amount_spec "  \"123.45\"  " "123" rfl

/-! ## C2: the APY computation versus the spec formula -/

/-- `rustRound` is within a half of its argument. -/
lemma rustRound_close (q : ℚ) : |(rustRound q : ℚ) - q| ≤ 1 / 2 := by
  unfold rustRound
  by_cases hq : q < 0
  · rw [if_pos hq]
    have h1 : ((-q + 1 / 2 : ℚ) - 1) < (⌊(-q + 1 / 2 : ℚ)⌋ : ℚ) := Int.sub_one_lt_floor _
    have h2 : ((⌊(-q + 1 / 2 : ℚ)⌋ : ℚ)) ≤ -q + 1 / 2 := Int.floor_le _
    rw [abs_le]
    constructor <;> push_cast <;> linarith
  · rw [if_neg hq]
    have h1 : ((q + 1 / 2 : ℚ) - 1) < (⌊(q + 1 / 2 : ℚ)⌋ : ℚ) := Int.sub_one_lt_floor _
    have h2 : ((⌊(q + 1 / 2 : ℚ)⌋ : ℚ)) ≤ q + 1 / 2 := Int.floor_le _
    rw [abs_le]
    constructor <;> linarith

/-- C2, counterexample.  At `rewards = "1"`, `stake = "1"` (every `f64`
intermediate of the source is the exact small integer the rational model
computes: 1.0, 730.0, 73000.0, 730.0), `calculate_apy` returns 730 while the
claimed formula — `(1/1) * 730 * 100` rounded to 2 decimal places — is
73000: the code's final `/ 100.0` cancels the percentage factor, leaving the
annual rate rounded to 2 decimals, a hundredth of the claimed value. -/
theorem calculate_apy_counterexample :
    calculate_apy "1" "1" = 730 ∧ apySpecFormula 1 1 = 73000 ∧
      ¬ (730 : ℚ) = 73000 := by
  refine ⟨?_, ?_, by norm_num⟩
  · have h : bigIntFromStr "1" = some 1 := rfl
    rw [calculate_apy, h]
    norm_num [rustRound]
  · rw [apySpecFormula]
    norm_num [rustRound]

/-- C2, amended.  For stake 0 the result is 0; for non-zero stake,
`calculate_apy * 100` is within rounding distance 1/2 of
`(rewards / stake) * 730 * 100`: the function returns the nearest-integer
rounding of the spec formula divided by 100 (equivalently, the annual rate
`(rewards / stake) * 730` rounded to 2 decimal places), not the spec formula
rounded to 2 decimal places. -/
theorem calculate_apy_spec (rewards stake_amount : String) :
    ((bigIntFromStr stake_amount).getD 0 = 0 → calculate_apy rewards stake_amount = 0) ∧
      (¬ (bigIntFromStr stake_amount).getD 0 = 0 →
        |calculate_apy rewards stake_amount * 100 -
            (((bigIntFromStr rewards).getD 0 : ℚ) /
              ((bigIntFromStr stake_amount).getD 0 : ℚ)) * 730 * 100| ≤ 1 / 2) := by
  constructor
  · intro h
    unfold calculate_apy
    rw [if_pos]
    exact_mod_cast h
  · intro h
    unfold calculate_apy
    rw [if_neg (by exact_mod_cast h)]
    have hc : ((rustRound ((((bigIntFromStr rewards).getD 0 : ℚ) /
          ((bigIntFromStr stake_amount).getD 0 : ℚ)) * 730 * 100) : ℚ)) / 100 * 100 =
        (rustRound ((((bigIntFromStr rewards).getD 0 : ℚ) /
          ((bigIntFromStr stake_amount).getD 0 : ℚ)) * 730 * 100) : ℚ) := by
      field_simp
    rw [hc]
    exact rustRound_close _

/-- C2 witness: the amended bound instantiated at `rewards = stake = "1"`. -/
theorem calculate_apy_spec_witness :
    |calculate_apy "1" "1" * 100 -
        (((bigIntFromStr "1").getD 0 : ℚ) / ((bigIntFromStr "1").getD 0 : ℚ)) *
          730 * 100| ≤ 1 / 2 :=
  (calculate_apy_spec "1" "1").2 (by decide)

/-! ## C8: failover without a retry loop in `query_rpc` -/

/-- C8, counterexample.  With both endpoints failing, the instrumented
`query_rpc` returns the secondary's error after exactly one call to each
endpoint: no retry loop is entered and no backoff happens before the error
reaches the caller. -/
theorem query_rpc_counterexample :
    query_rpc (α := Unit) (Except.error "primary down")
        (Except.error "secondary down") =
      (Except.error "secondary down", 1, 1) := rfl

/-- C8, amended.  `query_rpc` — the wrapper behind the latest-block,
block-by-height, and contract-view operations — issues exactly one request
to the primary and at most one to the secondary; when both fail the
secondary's error is surfaced to the caller immediately (retry loops with
backoff exist only inside `get_validators_info` and `get_block_info`). -/
theorem query_rpc_no_retry {α : Type} (p s : Except String α) :
    (query_rpc p s).2.1 = 1 ∧ (query_rpc p s).2.2 ≤ 1 ∧
      (∀ e e', p = Except.error e → s = Except.error e' →
        (query_rpc p s).1 = Except.error e') := by
  cases p <;> cases s <;> simp [query_rpc]

/-- C8 witness: the amended statement instantiated with two failing
endpoints. -/
theorem query_rpc_no_retry_witness :
    (query_rpc (α := Unit) (Except.error "a") (Except.error "b")).1 =
      Except.error "b" :=
  (query_rpc_no_retry (Except.error "a") (Except.error "b")).2.2 "a" "b" rfl rfl

/-! ## C6: a ParseAmount failure aborts the batch -/

/-- A raw transaction whose receipt analysis resolves to a parseable staking
action. -/
def goodRawTx : RawTx :=
  ⟨"hash1", 1, "1700000000000000000", "alice.near",
    some ⟨"stake", "100", "deposit_and_stake"⟩⟩

/-- A raw transaction whose resolved amount is the literal string `"all"`
(the `withdraw_all` rule), which `safe_parse_amount` rejects. -/
def badRawTx : RawTx :=
  ⟨"hash2", 2, "1700000000100000000", "bob.near",
    some ⟨"unstake", "all", "withdraw_all"⟩⟩

/-- Another parseable raw transaction, after the failing one. -/
def goodRawTx2 : RawTx :=
  ⟨"hash3", 3, "1700000000200000000", "carol.near",
    some ⟨"unstake", "50", "unstake"⟩⟩

/-- C6, counterexample.  A batch with one unparseable amount (`"all"`, from
a `withdraw_all`) between two good transactions: `process_transactions`
returns the propagated error — no records at all, not the records of the
remaining transactions. -/
theorem process_transactions_counterexample :
    process_transactions [goodRawTx, badRawTx, goodRawTx2] =
      Except.error "parse amount: all" := rfl

/-- C6, amended.  A `ParseAmount` failure in `analyze_staking_transaction`
is propagated by the `?` operator: `process_transactions` returns that error
and abandons the whole batch (the transactions after the offending one are
not processed and no records are returned). -/
theorem process_transactions_aborts (pre post : List RawTx) (bad : RawTx)
    (e : String)
    (hpre : ∀ tx ∈ pre, ∃ r, analyze_staking_transaction tx = Except.ok r)
    (hbad : analyze_staking_transaction bad = Except.error e) :
    process_transactions (pre ++ bad :: post) = Except.error e := by
  unfold process_transactions
  suffices hgo : ∀ (pre' : List RawTx) (acc : List Transaction),
      (∀ tx ∈ pre', ∃ r, analyze_staking_transaction tx = Except.ok r) →
      processTransactionsGo (pre' ++ bad :: post) acc = Except.error e by
    exact hgo pre [] hpre
  intro pre'
  induction pre' with
  | nil =>
    intro acc _
    simp only [List.nil_append, processTransactionsGo, hbad]
  | cons tx rest ih =>
    intro acc hall
    obtain ⟨r, hr⟩ := hall tx (List.mem_cons_self tx rest)
    have hrest : ∀ t ∈ rest, ∃ q, analyze_staking_transaction t = Except.ok q :=
      fun t ht => hall t (List.mem_cons_of_mem tx ht)
    cases r with
    | none => simp only [List.cons_append, processTransactionsGo, hr]; exact ih _ hrest
    | some t => simp only [List.cons_append, processTransactionsGo, hr]; exact ih _ hrest

/-- C6 witness: the abort theorem applied to the concrete
good/bad/good batch. -/
theorem process_transactions_aborts_witness :
    process_transactions ([goodRawTx] ++ badRawTx :: [goodRawTx2]) =
      Except.error "parse amount: all" :=
  process_transactions_aborts [goodRawTx] [goodRawTx2] badRawTx
    "parse amount: all"
    (by
      intro tx htx
      rw [List.mem_singleton] at htx
      subst htx
      exact ⟨_, rfl⟩)
    rfl

/-! ## C7: the two per-delegator stake maps -/

/-- One `calculate_initial_stakes` step changes the looked-up (default-0)
value by exactly the signed contribution of the transaction. -/
lemma initialStakesStep_getD (m : StakeMap) (tx : Transaction) (d : String) :
    ((initialStakesStep m tx) d).getD 0 = (m d).getD 0 + txContribution d tx := by
  unfold initialStakesStep txContribution
  cases hp : bigIntFromStr tx.amount with
  | none => simp
  | some a =>
    by_cases hd : d = tx.delegator_address
    · subst hd
      by_cases hstake : tx.type_ = "stake"
      · simp [hstake]
      · by_cases hunstake : tx.type_ = "unstake"
        · simp [hstake, hunstake, sub_eq_add_neg]
        · simp [hstake, hunstake]
    · simp [hd, Ne.symm hd]

/-- One `calculate_epoch_transaction_totals` step changes the looked-up
(default-0) value by exactly the signed contribution of the transaction:
an unparseable amount is `unwrap_or(0)`, so the entry it force-creates
carries contribution 0. -/
lemma epochTotalsStep_getD (m : StakeMap) (tx : Transaction) (d : String) :
    ((epochTotalsStep m tx) d).getD 0 = (m d).getD 0 + txContribution d tx := by
  unfold epochTotalsStep txContribution
  cases hp : bigIntFromStr tx.amount with
  | none =>
    by_cases hd : d = tx.delegator_address
    · subst hd
      by_cases hstake : tx.type_ = "stake"
      · simp [hstake]
      · by_cases hunstake : tx.type_ = "unstake"
        · simp [hstake, hunstake]
        · simp [hstake, hunstake]
    · simp [hd, Ne.symm hd]
  | some a =>
    by_cases hd : d = tx.delegator_address
    · subst hd
      by_cases hstake : tx.type_ = "stake"
      · simp [hstake]
      · by_cases hunstake : tx.type_ = "unstake"
        · simp [hstake, hunstake, sub_eq_add_neg]
        · simp [hstake, hunstake]
    · simp [hd, Ne.symm hd]

/-- Folding `initialStakesStep` accumulates the signed sum on every key. -/
lemma foldl_initialStakesStep_getD (txs : List Transaction) (m : StakeMap)
    (d : String) :
    ((txs.foldl initialStakesStep m) d).getD 0 = (m d).getD 0 + signedTxSum txs d := by
  induction txs generalizing m with
  | nil => simp [signedTxSum]
  | cons tx rest ih =>
    rw [List.foldl_cons, ih, initialStakesStep_getD]
    simp [signedTxSum, add_assoc]

/-- Folding `epochTotalsStep` accumulates the signed sum on every key. -/
lemma foldl_epochTotalsStep_getD (txs : List Transaction) (m : StakeMap)
    (d : String) :
    ((txs.foldl epochTotalsStep m) d).getD 0 = (m d).getD 0 + signedTxSum txs d := by
  induction txs generalizing m with
  | nil => simp [signedTxSum]
  | cons tx rest ih =>
    rw [List.foldl_cons, ih, epochTotalsStep_getD]
    simp [signedTxSum, add_assoc]

/-- The signed sum is invariant under the stable sort of
`calculate_initial_stakes`. -/
lemma signedTxSum_mergeSort (txs : List Transaction) (d : String) :
    signedTxSum
        (txs.mergeSort (fun a b => decide (a.block_height ≤ b.block_height))) d =
      signedTxSum txs d := by
  unfold signedTxSum
  exact ((List.mergeSort_perm txs _).map (txContribution d)).sum_eq

/-- A transaction whose amount string `"x"` does not parse. -/
def badAmountTx : Transaction :=
  ⟨"hashx", "x", "unknown", "stake", "stake", 1, 0, "dora.near"⟩

/-- C7, counterexample.  On a transaction whose amount does not parse the
two maps differ: `calculate_initial_stakes` skips the transaction before
creating an entry (`continue`), while `calculate_epoch_transaction_totals`
creates the delegator's entry with value 0 (`unwrap_or(0)`), so the maps are
not equal — although their default-0 lookups agree. -/
theorem stake_maps_counterexample :
    calculate_initial_stakes [badAmountTx] "dora.near" = none ∧
      calculate_epoch_transaction_totals [badAmountTx] "dora.near" = some 0 ∧
      ¬ calculate_initial_stakes [badAmountTx] =
          calculate_epoch_transaction_totals [badAmountTx] := by
  have h1 : calculate_initial_stakes [badAmountTx] "dora.near" = none := by
    rw [calculate_initial_stakes, List.mergeSort_singleton]
    rfl
  have h2 : calculate_epoch_transaction_totals [badAmountTx] "dora.near" = some 0 := rfl
  refine ⟨h1, h2, fun h => ?_⟩
  have := congrFun h "dora.near"
  rw [h1, h2] at this
  exact Option.noConfusion this

/-- C7, amended.  For every transaction list and delegator the default-0
lookups of the two maps coincide, both equal to the signed per-delegator sum
(`+amount` for kind "stake", `-amount` for kind "unstake", 0 otherwise, with
unparseable amounts contributing 0); the maps themselves can differ in
domain exactly on delegators all of whose transactions have unparseable
amounts, which `calculate_initial_stakes` skips but
`calculate_epoch_transaction_totals` records with a zero entry. -/
theorem stake_maps_agree (txs : List Transaction) (d : String) :
    ((calculate_initial_stakes txs) d).getD 0 = signedTxSum txs d ∧
      ((calculate_epoch_transaction_totals txs) d).getD 0 = signedTxSum txs d := by
  constructor
  · rw [calculate_initial_stakes, foldl_initialStakesStep_getD]
    simp [signedTxSum_mergeSort]
  · rw [calculate_epoch_transaction_totals, foldl_epochTotalsStep_getD]
    simp

/-! ## C3: correctness of the boundary search -/

/-- The linear scan never returns below its cursor (when the cursor is in
range). -/
lemma findBoundaryLinearLoop_ge (oracle : Nat → String) (endB : Nat)
    (cur : String) :
    ∀ fuel current, current ≤ endB + 1 →
      current ≤ findBoundaryLinearLoop oracle endB cur fuel current := by
  intro fuel
  induction fuel with
  | zero => intro current h; simpa [findBoundaryLinearLoop] using h
  | succ n ih =>
    intro current h
    simp only [findBoundaryLinearLoop]
    by_cases hce : current ≤ endB
    · rw [if_pos hce]
      by_cases hoc : ¬ oracle current = cur
      · rw [if_pos hoc]
      · rw [if_neg hoc]
        exact le_trans (Nat.le_succ current) (ih (current + 1) (by omega))
    · rw [if_neg hce]
      omega

/-- When the scan starts on a block of the current epoch it advances at
least one block. -/
lemma findBoundaryLinearLoop_succ (oracle : Nat → String) (endB : Nat)
    (cur : String) :
    ∀ fuel current, endB + 2 - current ≤ fuel → current ≤ endB →
      oracle current = cur →
      current + 1 ≤ findBoundaryLinearLoop oracle endB cur fuel current := by
  intro fuel
  induction fuel with
  | zero => intro current hf hce _; omega
  | succ n ih =>
    intro current hf hce hoc
    simp only [findBoundaryLinearLoop]
    rw [if_pos hce, if_neg (by simpa using hoc)]
    exact findBoundaryLinearLoop_ge oracle endB cur n (current + 1) (by omega)

/-- Main correctness of the linear scan: with the epoch ids below `b` equal
to the current id and those from `b` on different, the scan returns `b`. -/
lemma findBoundaryLinearLoop_finds (oracle : Nat → String) (cur : String)
    (endB lo b : Nat)
    (Hbelow : ∀ h, lo ≤ h → h < b → oracle h = cur)
    (Habove : ∀ h, b ≤ h → ¬ oracle h = cur) :
    ∀ fuel current, endB + 2 - current ≤ fuel → lo ≤ current → current ≤ b →
      b ≤ endB + 1 → findBoundaryLinearLoop oracle endB cur fuel current = b := by
  intro fuel
  induction fuel with
  | zero => intro current hf hlo hcb hbe; exact ((by omega : False)).elim
  | succ n ih =>
    intro current hf hlo hcb hbe
    simp only [findBoundaryLinearLoop]
    by_cases hce : current ≤ endB
    · rw [if_pos hce]
      by_cases hoc : ¬ oracle current = cur
      · rw [if_pos hoc]
        have hnb : ¬ current < b := fun hlt => hoc (Hbelow current hlo hlt)
        omega
      · rw [if_neg hoc]
        push_neg at hoc
        have hlt : current < b := by
          rcases Nat.lt_or_ge current b with hlt | hge
          · exact hlt
          · exact absurd hoc (Habove current hge)
        exact ih (current + 1) (by omega) (by omega) (by omega) hbe
    · rw [if_neg hce]
      omega

/-- The binary search never returns below `low`. -/
lemma findEpochBoundaryLoop_ge (oracle : Nat → String) (cur : String) :
    ∀ fuel low high, low ≤ findEpochBoundaryLoop oracle cur fuel low high := by
  intro fuel
  induction fuel with
  | zero => intro low high; simp [findEpochBoundaryLoop]
  | succ n ih =>
    intro low high
    simp only [findEpochBoundaryLoop]
    by_cases hlh : low ≤ high
    · rw [if_pos hlh]
      by_cases hsmall : high - low ≤ 5
      · rw [if_pos hsmall]
        exact findBoundaryLinearLoop_ge oracle high cur _ low (by omega)
      · rw [if_neg hsmall]
        by_cases hoc : oracle (low + (high - low) / 2) = cur
        · rw [if_pos hoc]
          exact le_trans (by omega) (ih (low + (high - low) / 2 + 1) high)
        · rw [if_neg hoc]
          exact ih low (low + (high - low) / 2 - 1)
    · rw [if_neg hlh]

/-- When the search starts on a block of the current epoch the returned
boundary strictly exceeds the start. -/
lemma findEpochBoundaryLoop_succ (oracle : Nat → String) (cur : String) :
    ∀ fuel low high, high + 2 - low ≤ fuel → low ≤ high → oracle low = cur →
      low + 1 ≤ findEpochBoundaryLoop oracle cur fuel low high := by
  intro fuel
  induction fuel with
  | zero => intro low high hf hlh _; omega
  | succ n ih =>
    intro low high hf hlh hoc
    simp only [findEpochBoundaryLoop]
    rw [if_pos hlh]
    by_cases hsmall : high - low ≤ 5
    · rw [if_pos hsmall]
      unfold find_boundary_linear
      exact findBoundaryLinearLoop_succ oracle high cur _ low (le_refl _) hlh hoc
    · rw [if_neg hsmall]
      by_cases hmid : oracle (low + (high - low) / 2) = cur
      · rw [if_pos hmid]
        exact le_trans (by omega) (findEpochBoundaryLoop_ge oracle cur n _ high)
      · rw [if_neg hmid]
        have hne : ¬ low + (high - low) / 2 = low := fun he => hmid (by rw [he]; exact hoc)
        exact ih low (low + (high - low) / 2 - 1) (by omega) (by omega) hoc

/-- Main correctness of the binary search loop: it converges to the first
height `b` whose epoch id differs, provided the invariant
`low ≤ b ≤ high + 1` holds and enough fuel is supplied. -/
lemma findEpochBoundaryLoop_finds (oracle : Nat → String) (cur : String)
    (lo b : Nat)
    (Hbelow : ∀ h, lo ≤ h → h < b → oracle h = cur)
    (Habove : ∀ h, b ≤ h → ¬ oracle h = cur) :
    ∀ fuel low high, high + 2 - low ≤ fuel → lo ≤ low → low ≤ b →
      b ≤ high + 1 → findEpochBoundaryLoop oracle cur fuel low high = b := by
  intro fuel
  induction fuel with
  | zero => intro low high hf hlo hlb hbh; exact ((by omega : False)).elim
  | succ n ih =>
    intro low high hf hlo hlb hbh
    simp only [findEpochBoundaryLoop]
    by_cases hlh : low ≤ high
    · rw [if_pos hlh]
      by_cases hsmall : high - low ≤ 5
      · rw [if_pos hsmall]
        unfold find_boundary_linear
        exact findBoundaryLinearLoop_finds oracle cur high lo b Hbelow Habove
          _ low (le_refl _) hlo hlb hbh
      · rw [if_neg hsmall]
        have hmid_le : low + (high - low) / 2 ≤ high := by omega
        by_cases hoc : oracle (low + (high - low) / 2) = cur
        · rw [if_pos hoc]
          have hmb : low + (high - low) / 2 < b := by
            rcases Nat.lt_or_ge (low + (high - low) / 2) b with hlt | hge
            · exact hlt
            · exact absurd hoc (Habove _ hge)
          exact ih (low + (high - low) / 2 + 1) high (by omega) (by omega)
            (by omega) hbh
        · rw [if_neg hoc]
          have hmb : b ≤ low + (high - low) / 2 := by
            rcases Nat.lt_or_ge (low + (high - low) / 2) b with hlt | hge
            · exact absurd (Hbelow _ (by omega) hlt) hoc
            · exact hge
          exact ih low (low + (high - low) / 2 - 1) (by omega) hlo hlb (by omega)
    · rw [if_neg hlh]
      omega

/-- C3.  For every height-to-epoch-id oracle with the two-phase shape — all
heights in `[lo, b)` carry `current_epoch_id`, all heights `≥ b` carry a
different id — and `lo ≤ b ≤ hi`, `find_epoch_boundary lo hi` returns `b`,
the first height whose epoch id differs. -/
theorem find_epoch_boundary_correct (oracle : Nat → String) (lo hi b : Nat)
    (cur : String)
    (Hbelow : ∀ h, lo ≤ h → h < b → oracle h = cur)
    (Habove : ∀ h, b ≤ h → ¬ oracle h = cur)
    (hlob : lo ≤ b) (hbhi : b ≤ hi) :
    find_epoch_boundary oracle lo hi cur = b := by
  unfold find_epoch_boundary
  exact findEpochBoundaryLoop_finds oracle cur lo b Hbelow Habove _ lo hi
    (le_refl _) (le_refl _) hlob (by omega)

/-- C3 witness: the spec's scenario F — blocks `[100,149]` in epoch "A",
`[150,∞)` in epoch "B" — where the search over `[100,200]` returns 150. -/
theorem find_epoch_boundary_correct_witness :
    find_epoch_boundary (fun h => if h < 150 then "A" else "B") 100 200 "A" = 150 :=
  find_epoch_boundary_correct (fun h => if h < 150 then "A" else "B") 100 200 150 "A"
    (fun h _ hlt => by simp [hlt])
    (fun h hb => by simp [Nat.not_lt.mpr hb])
    (by decide) (by decide)

/-! ## C4: the discovered epoch list -/

/-- In the setting of `get_epoch_data` — the search window starts at the
current height, whose epoch id is the current epoch id — the boundary
strictly advances. -/
lemma find_epoch_boundary_succ (oracle : Nat → String) (low high : Nat)
    (cur : String) (hoc : oracle low = cur) (hlh : low ≤ high) :
    low + 1 ≤ find_epoch_boundary oracle low high cur := by
  unfold find_epoch_boundary
  exact findEpochBoundaryLoop_succ oracle cur _ low high (le_refl _) hlh hoc

/-- The discovery loop, started with the invariant it maintains
(`epoch_start = current_height` and `current_epoch_id` equal to the oracle's
id at `current_height`), produces a contiguous list whose head starts at the
current height. -/
lemma getEpochDataLoop_chain (oracle : ChainOracle) (eb : Nat) :
    ∀ fuel ch ts,
      List.Chain' epochContiguous
        (getEpochDataLoop oracle eb fuel ch (oracle.epochId ch) ch ts) ∧
      (∀ e, (getEpochDataLoop oracle eb fuel ch (oracle.epochId ch) ch ts).head?
          = some e → e.start_block = ch) := by
  intro fuel
  induction fuel with
  | zero =>
    intro ch ts
    simp only [getEpochDataLoop]
    unfold epochDataFinal
    by_cases h : ch < oracle.currentBlock
    · rw [if_pos h]
      exact ⟨List.chain'_singleton _, by intro e he; cases he; rfl⟩
    · rw [if_neg h]
      exact ⟨List.chain'_nil, by intro e he; cases he⟩
  | succ n ih =>
    intro ch ts
    simp only [getEpochDataLoop]
    by_cases hc : ch < oracle.currentBlock
    · rw [if_pos hc]
      by_cases hest : oracle.currentBlock ≤ ch + eb
      · rw [if_pos hest]
        unfold epochDataFinal
        by_cases h : ch < oracle.currentBlock
        · rw [if_pos h]
          exact ⟨List.chain'_singleton _, by intro e he; cases he; rfl⟩
        · rw [if_neg h]
          exact ⟨List.chain'_nil, by intro e he; cases he⟩
      · rw [if_neg hest]
        have hb : ch + 1 ≤ find_epoch_boundary oracle.epochId ch
            (ch + eb + eb / 2) (oracle.epochId ch) :=
          find_epoch_boundary_succ oracle.epochId ch (ch + eb + eb / 2)
            (oracle.epochId ch) rfl (by omega)
        obtain ⟨ihchain, ihhead⟩ := ih (find_epoch_boundary oracle.epochId ch
          (ch + eb + eb / 2) (oracle.epochId ch))
          (blockTsSecs oracle (find_epoch_boundary oracle.epochId ch
            (ch + eb + eb / 2) (oracle.epochId ch)))
        constructor
        · rw [List.chain'_cons']
          refine ⟨?_, ihchain⟩
          intro e he
          have hse := ihhead e he
          unfold epochContiguous
          rw [hse]
          simp only [Option.map_some']
          congr 1
          omega
        · intro e he
          cases he
          rfl
    · rw [if_neg hc]
      unfold epochDataFinal
      rw [if_neg (by omega)]
      exact ⟨List.chain'_nil, by intro e he; cases he⟩

/-- A chain with epoch "A" on `[0,16)`, "B" on `[16,32)` and "C" from 32 on;
latest finalised block 30. -/
def seamOracle : ChainOracle :=
  ⟨fun h => if h < 16 then "A" else if h < 32 then "B" else "C", fun _ => 0, 30⟩

/-- State persisted by an earlier run against `seamOracle`: the complete
epoch "A" and the then-partial epoch "B". -/
def seamPersisted : List EpochInfo :=
  [⟨0, some 15, "A", 0⟩, ⟨16, some 25, "B", 0⟩]

/-- C4, counterexample.  Resuming against `seamOracle` with `EPOCH_BLOCKS =
10`: discovery restarts from the latest persisted epoch's `start_block` 16
and re-discovers epoch "B" as `[16,31]`; the upsert by `epoch_id`
overwrites the persisted partial record `⟨16,25,"B"⟩` in place, the indexed
read-back returns the post-save collection, and the new epoch is appended
again, yielding `[⟨0,15,"A"⟩, ⟨16,31,"B"⟩, ⟨16,31,"B"⟩]` — the seam pair is
not contiguous (`31 + 1 ≠ 16`) and the epoch id "B" repeats. -/
theorem epoch_list_counterexample :
    get_or_sync_epoch_data seamOracle seamPersisted 0 10 =
      [⟨0, some 15, "A", 0⟩, ⟨16, some 31, "B", 0⟩, ⟨16, some 31, "B", 0⟩] ∧
    ¬ (List.Chain' epochContiguous
        (get_or_sync_epoch_data seamOracle seamPersisted 0 10) ∧
      ((get_or_sync_epoch_data seamOracle seamPersisted 0 10).map
          EpochInfo.epoch_id).Nodup) := by
  have hlist : get_or_sync_epoch_data seamOracle seamPersisted 0 10 =
      [⟨0, some 15, "A", 0⟩, ⟨16, some 31, "B", 0⟩, ⟨16, some 31, "B", 0⟩] := by
    decide
  refine ⟨hlist, ?_⟩
  rw [hlist]
  rintro ⟨hchain, -⟩
  simp [List.chain'_cons, epochContiguous] at hchain

/-- C4, amended.  Within a single discovery run, consecutive epochs always
satisfy `E_i.end + 1 = E_{i+1}.start` (for every oracle, start height and
epoch-length estimate); but epoch ids need not be pairwise distinct — when
a boundary-search window ends inside the same epoch the id repeats — and on
resume the concatenation of persisted and re-discovered epochs overlaps at
the seam (re-discovery restarts at the last persisted epoch's
`start_block`), so neither contiguity nor distinctness holds there. -/
theorem get_epoch_data_contiguous (oracle : ChainOracle)
    (start_block_height epoch_blocks : Nat) :
    List.Chain' epochContiguous
      (get_epoch_data oracle start_block_height epoch_blocks) :=
  (getEpochDataLoop_chain oracle epoch_blocks (oracle.currentBlock + 1)
    start_block_height (blockTsSecs oracle start_block_height)).1

end NearIndexer
